import Mathlib

/-!
Verification of the LsMaker page-compose engine (`barcode_overlay_gui.py`).

The development shallowly embeds the pure core of the program:

* the file-name sanitizer `sanitize_filename`,
* the layout geometry (scale, placement, label anchor) computed by
  `compose_final_pdf` and `draw_base_a4_with_text_and_label`,
* the top-text line-drawing loop with its bottom-margin clipping,
* the paragraph wrapping pipeline (`splitlines` / `simpleSplit` fallbacks),
* the failure/file-state behaviour of `compose_final_pdf` and the GUI
  validation in `App.create_pdf`.

Python `float` arithmetic is modelled by exact rational arithmetic (`ℚ`);
strings are modelled as `List Char`.  Effectful steps (file reads, the pypdf
reader/merge, the output write) are modelled by an environment of
`Except`-valued step results together with an explicit file-system state for
the output path.
-/

namespace LsMaker

/-! ## Module constants (source lines 12-17) -/

/-- A4 page width in points: reportlab's `A4 = (210*mm, 297*mm)` with
`mm = 72/25.4 pt`, i.e. exactly `75600/127`. -/
def PAGE_W : ℚ := 75600 / 127

/-- A4 page height in points, exactly `106920/127`. -/
def PAGE_H : ℚ := 106920 / 127

/-- Uniform page margin in points (source: `MARGIN = 36`). -/
def MARGIN : ℚ := 36

/-- Target width of the placed barcode graphic (source: `BARCODE_TARGET_W = 360.0`). -/
def BARCODE_TARGET_W : ℚ := 360

/-- Vertical gap between the graphic's lower edge and the label
(source: `GAP_BARCODE_LABEL = 14.0`). -/
def GAP_BARCODE_LABEL : ℚ := 14

/-- Font size of the top text (source: `TOP_TEXT_FONT = ("Helvetica", 10)`). -/
def TOP_TEXT_FONT_SIZE : ℚ := 10

/-! ## Character classes used by `sanitize_filename` -/

/-- Whitespace in the sense of Python's `str.strip` and the regex class
`\s` (Unicode mode): ASCII whitespace, the information-separator block, and
the Unicode space characters. -/
def pySpace (c : Char) : Bool :=
  [9, 10, 11, 12, 13, 28, 29, 30, 31, 32, 0x85, 0xA0, 0x1680,
   0x2000, 0x2001, 0x2002, 0x2003, 0x2004, 0x2005, 0x2006, 0x2007,
   0x2008, 0x2009, 0x200A, 0x2028, 0x2029, 0x202F, 0x205F, 0x3000].contains c.toNat

/-- The forbidden file-name characters of the regex `[\\/:"*?<>|]`. -/
def isForbChar (c : Char) : Bool :=
  c = '\\' || c = '/' || c = ':' || c = '"' || c = '*' || c = '?' ||
    c = '<' || c = '>' || c = '|'

/-! ## Primitive string operations -/

/-- Remove trailing characters satisfying `pySpace` (the right half of
Python's `str.strip`). -/
def dropTrailingWs (l : List Char) : List Char :=
  (l.reverse.dropWhile pySpace).reverse

/-- Python's `str.strip()`: remove leading and trailing whitespace. -/
def stripWs (l : List Char) : List Char :=
  dropTrailingWs (l.dropWhile pySpace)

/-- Replace every maximal run of characters satisfying `p` by the single
character `rep`; the boolean records whether the previous character was part
of such a run.  This is `re.sub(r"[class]+", rep, s)` for a character class. -/
def collapseRunsAux (p : Char → Bool) (rep : Char) : Bool → List Char → List Char
  | _, [] => []
  | true, c :: cs =>
    if p c then collapseRunsAux p rep true cs
    else c :: collapseRunsAux p rep false cs
  | false, c :: cs =>
    if p c then rep :: collapseRunsAux p rep true cs
    else c :: collapseRunsAux p rep false cs

/-- Replace every maximal run of `p`-characters by `rep`. -/
def collapseRuns (p : Char → Bool) (rep : Char) (l : List Char) : List Char :=
  collapseRunsAux p rep false l

/-- Source line 22: `re.sub(r'[\\/:"*?<>|]+', "-", name)`. -/
def replForb (l : List Char) : List Char :=
  collapseRuns isForbChar '-' l

/-- Source line 24, first half: `re.sub(r"\s+", " ", name)`. -/
def collapseWs (l : List Char) : List Char :=
  collapseRuns pySpace ' ' l

/-- The value of the variable `name` after source line 24: strip, replace
forbidden runs by a hyphen, collapse whitespace runs, strip again. -/
def sanitizedCore (s : List Char) : List Char :=
  stripWs (collapseWs (replForb (stripWs s)))

/-- Embedding of `sanitize_filename` (source lines 19-26): strip, replace
forbidden runs by a hyphen, collapse whitespace runs and strip again, then
truncate to 120 characters with fallback `"output"` for the empty result
(source line 26: `return name[:120] if name else "output"`). -/
def sanitize_filename (s : List Char) : List Char :=
  if sanitizedCore s = [] then String.toList "output"
  else (sanitizedCore s).take 120

/-! ## Helper lemmas: dropWhile and strip -/

lemma head_dropWhile_not (p : Char → Bool) (l : List Char) (c : Char)
    (h : (l.dropWhile p).head? = some c) : p c = false := by
  induction l with
  | nil => simp [List.dropWhile] at h
  | cons a t ih =>
    rw [List.dropWhile_cons] at h
    by_cases hp : p a = true
    · rw [if_pos hp] at h
      exact ih h
    · rw [if_neg hp] at h
      simp only [List.head?_cons, Option.some.injEq] at h
      subst h
      exact Bool.eq_false_iff.mpr hp

lemma dropWhile_exists_prepend (p : Char → Bool) (l : List Char) :
    ∃ s, s ++ l.dropWhile p = l := by
  induction l with
  | nil => exact ⟨[], rfl⟩
  | cons a t ih =>
    by_cases hp : p a = true
    · rcases ih with ⟨s, hs⟩
      refine ⟨a :: s, ?_⟩
      rw [List.dropWhile_cons, if_pos hp, List.cons_append, hs]
    · refine ⟨[], ?_⟩
      rw [List.dropWhile_cons, if_neg hp, List.nil_append]

lemma dropTrailingWs_exists_append (l : List Char) :
    ∃ t, dropTrailingWs l ++ t = l := by
  rcases dropWhile_exists_prepend pySpace l.reverse with ⟨s, hs⟩
  refine ⟨s.reverse, ?_⟩
  have h2 := congrArg List.reverse hs
  simpa [dropTrailingWs, List.reverse_append] using h2

lemma head?_of_prepend {l t m : List Char} (h : l ++ t = m) {c : Char}
    (hc : l.head? = some c) : m.head? = some c := by
  cases l with
  | nil => simp at hc
  | cons a s =>
    simp only [List.head?_cons, Option.some.injEq] at hc
    rw [← h, List.cons_append, List.head?_cons, hc]

lemma mem_of_mem_stripWs {c : Char} {l : List Char} (h : c ∈ stripWs l) : c ∈ l := by
  unfold stripWs dropTrailingWs at h
  rw [List.mem_reverse] at h
  have h2 := List.dropWhile_subset pySpace h
  rw [List.mem_reverse] at h2
  exact List.dropWhile_subset pySpace h2

lemma stripWs_head (l : List Char) (c : Char) (h : (stripWs l).head? = some c) :
    pySpace c = false := by
  rcases dropTrailingWs_exists_append (l.dropWhile pySpace) with ⟨t, ht⟩
  exact head_dropWhile_not pySpace l c (head?_of_prepend ht h)

lemma stripWs_getLast (l : List Char) (c : Char) (h : (stripWs l).getLast? = some c) :
    pySpace c = false := by
  unfold stripWs dropTrailingWs at h
  rw [List.getLast?_reverse] at h
  exact head_dropWhile_not pySpace _ c h

lemma dropWhile_eq_self_of_head (p : Char → Bool) (l : List Char)
    (h : ∀ c, l.head? = some c → p c = false) : l.dropWhile p = l := by
  cases l with
  | nil => rfl
  | cons a t =>
    have ha : p a = false := h a rfl
    rw [List.dropWhile_cons, if_neg (by simp [ha])]

lemma stripWs_eq_self (l : List Char)
    (h1 : ∀ c, l.head? = some c → pySpace c = false)
    (h2 : ∀ c, l.getLast? = some c → pySpace c = false) : stripWs l = l := by
  unfold stripWs dropTrailingWs
  rw [dropWhile_eq_self_of_head pySpace l h1]
  have h3 : l.reverse.dropWhile pySpace = l.reverse := by
    refine dropWhile_eq_self_of_head pySpace l.reverse (fun c hc => ?_)
    rw [List.head?_reverse] at hc
    exact h2 c hc
  rw [h3, List.reverse_reverse]

/-! ## Helper lemmas: collapseRuns -/

lemma mem_collapseRunsAux {p : Char → Bool} {rep : Char} :
    ∀ (b : Bool) (l : List Char) (c : Char),
      c ∈ collapseRunsAux p rep b l → c = rep ∨ (c ∈ l ∧ p c = false) := by
  intro b l
  induction l generalizing b with
  | nil => intro c h; cases b <;> simp [collapseRunsAux] at h
  | cons a t ih =>
    intro c h
    by_cases hp : p a = true
    · cases b with
      | true =>
        rw [collapseRunsAux, if_pos hp] at h
        rcases ih true c h with h1 | ⟨h2, h3⟩
        · exact Or.inl h1
        · exact Or.inr ⟨List.mem_cons_of_mem a h2, h3⟩
      | false =>
        rw [collapseRunsAux, if_pos hp] at h
        rcases List.mem_cons.mp h with h1 | h1
        · exact Or.inl h1
        · rcases ih true c h1 with h2 | ⟨h3, h4⟩
          · exact Or.inl h2
          · exact Or.inr ⟨List.mem_cons_of_mem a h3, h4⟩
    · have hstep : collapseRunsAux p rep b (a :: t) = a :: collapseRunsAux p rep false t := by
        cases b <;> rw [collapseRunsAux, if_neg hp]
      rw [hstep] at h
      rcases List.mem_cons.mp h with h1 | h1
      · refine Or.inr ⟨?_, ?_⟩
        · rw [h1]; exact List.mem_cons_self a t
        · rw [h1]; exact Bool.eq_false_iff.mpr hp
      · rcases ih false c h1 with h2 | ⟨h3, h4⟩
        · exact Or.inl h2
        · exact Or.inr ⟨List.mem_cons_of_mem a h3, h4⟩

lemma collapseRunsAux_eq_self {p : Char → Bool} {rep : Char} :
    ∀ (b : Bool) (l : List Char), (∀ c ∈ l, p c = false) →
      collapseRunsAux p rep b l = l := by
  intro b l
  induction l generalizing b with
  | nil => intro _; cases b <;> rfl
  | cons a t ih =>
    intro h
    have ha : p a = false := h a (List.mem_cons_self a t)
    have hstep : collapseRunsAux p rep b (a :: t) = a :: collapseRunsAux p rep false t := by
      cases b <;> rw [collapseRunsAux, if_neg (by simp [ha])]
    rw [hstep, ih false (fun c hc => h c (List.mem_cons_of_mem a hc))]

/-! ## The shape of collapsed whitespace

After `re.sub(r"\s+", " ", -)` every whitespace character of the string is a
plain space and no two whitespace characters are adjacent.  `goodWs` captures
this shape; it is preserved by stripping and characterizes the strings on
which the whitespace-collapsing pass is the identity. -/

/-- The local condition of `goodWs` for one character and its successor. -/
def okPair (c : Char) (next : Option Char) : Bool :=
  if pySpace c = true then
    (c == ' ') && (match next with | some d => !(pySpace d) | none => true)
  else true

/-- Every whitespace character is a plain space and is not followed by
another whitespace character. -/
def goodWs : List Char → Bool
  | [] => true
  | c :: cs => okPair c cs.head? && goodWs cs

lemma goodWs_cons {c : Char} {cs : List Char} (h : goodWs (c :: cs) = true) :
    okPair c cs.head? = true ∧ goodWs cs = true := by
  simpa [goodWs, Bool.and_eq_true] using h

lemma collapseWs_true_head :
    ∀ (l : List Char) (c : Char),
      (collapseRunsAux pySpace ' ' true l).head? = some c → pySpace c = false := by
  intro l
  induction l with
  | nil => intro c h; simp [collapseRunsAux] at h
  | cons a t ih =>
    intro c h
    by_cases hp : pySpace a = true
    · rw [collapseRunsAux, if_pos hp] at h
      exact ih c h
    · rw [collapseRunsAux, if_neg hp] at h
      simp only [List.head?_cons, Option.some.injEq] at h
      subst h
      exact Bool.eq_false_iff.mpr hp

lemma collapseWs_goodWs : ∀ (b : Bool) (l : List Char),
    goodWs (collapseRunsAux pySpace ' ' b l) = true := by
  intro b l
  induction l generalizing b with
  | nil => cases b <;> rfl
  | cons a t ih =>
    by_cases hp : pySpace a = true
    · cases b with
      | true =>
        rw [collapseRunsAux, if_pos hp]
        exact ih true
      | false =>
        rw [collapseRunsAux, if_pos hp]
        have hrest := ih true
        have hsp : pySpace ' ' = true := by decide
        cases hh : (collapseRunsAux pySpace ' ' true t).head? with
        | none => simp [goodWs, okPair, hsp, hh, hrest]
        | some d =>
          have hd : pySpace d = false := collapseWs_true_head t d hh
          simp [goodWs, okPair, hsp, hh, hd, hrest]
    · have ha : pySpace a = false := Bool.eq_false_iff.mpr hp
      have hstep : collapseRunsAux pySpace ' ' b (a :: t) =
          a :: collapseRunsAux pySpace ' ' false t := by
        cases b <;> rw [collapseRunsAux, if_neg hp]
      rw [hstep]
      simp [goodWs, okPair, ha, ih false]

lemma collapseWs_eq_self_of_goodWs :
    ∀ (l : List Char), goodWs l = true →
      collapseRunsAux pySpace ' ' false l = l ∧
      ((∀ c, l.head? = some c → pySpace c = false) →
        collapseRunsAux pySpace ' ' true l = l) := by
  intro l
  induction l with
  | nil => exact fun _ => ⟨rfl, fun _ => rfl⟩
  | cons a t ih =>
    intro h
    rcases goodWs_cons h with ⟨hok, ht⟩
    rcases ih ht with ⟨ih1, ih2⟩
    by_cases hp : pySpace a = true
    · have hsp : ((a == ' ') &&
          (match t.head? with | some d => !(pySpace d) | none => true)) = true := by
        simpa [okPair, hp] using hok
      rw [Bool.and_eq_true] at hsp
      have ha : a = ' ' := by simpa using hsp.1
      have hthead : ∀ c, t.head? = some c → pySpace c = false := by
        intro c hc
        have h2 := hsp.2
        rw [hc] at h2
        simpa using h2
      constructor
      · rw [collapseRunsAux, if_pos hp, ih2 hthead, ha]
      · intro hhead
        exact absurd (hhead a rfl) (by simp [hp])
    · have hstep : ∀ b, collapseRunsAux pySpace ' ' b (a :: t) =
          a :: collapseRunsAux pySpace ' ' false t := by
        intro b; cases b <;> rw [collapseRunsAux, if_neg hp]
      exact ⟨by rw [hstep false, ih1], fun _ => by rw [hstep true, ih1]⟩

lemma okPair_none_of (c : Char) (o : Option Char) (h : okPair c o = true) :
    okPair c none = true := by
  unfold okPair at *
  by_cases hp : pySpace c = true
  · rw [if_pos hp] at h ⊢
    cases o with
    | none => exact h
    | some d =>
      rw [Bool.and_eq_true] at h
      simp [h.1]
  · rw [if_neg hp]

lemma goodWs_append_left : ∀ (l₁ l₂ : List Char),
    goodWs (l₁ ++ l₂) = true → goodWs l₁ = true := by
  intro l₁
  induction l₁ with
  | nil => intro _ _; rfl
  | cons a t ih =>
    intro l₂ h
    rw [List.cons_append] at h
    rcases goodWs_cons h with ⟨hok, ht⟩
    have h1 : goodWs t = true := ih l₂ ht
    have h2 : okPair a t.head? = true := by
      cases t with
      | nil => exact okPair_none_of a l₂.head? (by simpa using hok)
      | cons b s => simpa using hok
    simp [goodWs, h1, h2]

lemma goodWs_dropWhile (p : Char → Bool) :
    ∀ l : List Char, goodWs l = true → goodWs (l.dropWhile p) = true := by
  intro l
  induction l with
  | nil => intro _; rfl
  | cons a t ih =>
    intro h
    rcases goodWs_cons h with ⟨_, ht⟩
    rw [List.dropWhile_cons]
    by_cases hp : p a = true
    · rw [if_pos hp]; exact ih ht
    · rw [if_neg hp]; exact h

lemma goodWs_stripWs (l : List Char) (h : goodWs l = true) :
    goodWs (stripWs l) = true := by
  have h1 : goodWs (l.dropWhile pySpace) = true := goodWs_dropWhile pySpace l h
  rcases dropTrailingWs_exists_append (l.dropWhile pySpace) with ⟨t, ht⟩
  have h2 : goodWs (dropTrailingWs (l.dropWhile pySpace) ++ t) = true := by
    rw [ht]; exact h1
  exact goodWs_append_left _ t h2

/-! ## Structural facts about the sanitized core -/

lemma sanitizedCore_no_forb (x : List Char) :
    ∀ c ∈ sanitizedCore x, isForbChar c = false := by
  intro c hc
  have hc2 : c ∈ collapseWs (replForb (stripWs x)) := mem_of_mem_stripWs hc
  rcases mem_collapseRunsAux false _ c hc2 with h | ⟨h, _⟩
  · subst h; decide
  · rcases mem_collapseRunsAux false _ c h with h2 | ⟨_, h3⟩
    · subst h2; decide
    · exact h3

lemma sanitizedCore_goodWs (x : List Char) : goodWs (sanitizedCore x) = true :=
  goodWs_stripWs _ (collapseWs_goodWs false _)

lemma sanitizedCore_head (x : List Char) (c : Char)
    (h : (sanitizedCore x).head? = some c) : pySpace c = false :=
  stripWs_head _ c h

lemma sanitizedCore_getLast (x : List Char) (c : Char)
    (h : (sanitizedCore x).getLast? = some c) : pySpace c = false :=
  stripWs_getLast _ c h

/-! ## Sanity checks on concrete inputs (spec section 8 example) -/

example : sanitize_filename (String.toList "A/B:C*D  ") = String.toList "A-B-C-D" := by decide

example : sanitize_filename (String.toList "   ") = String.toList "output" := by decide

example : sanitize_filename (String.toList "Lot 42") = String.toList "Lot 42" := by decide

/-! ## Claim C2: totality of the sanitizer -/

/-- Claim C2 (amended): `sanitize_filename` is total (a Lean function, so it
never raises) and always returns a string of length 1 to 120 containing no
forbidden character and starting with a non-whitespace character; the result
also ends with a non-whitespace character whenever the pre-truncation string
fits in 120 characters.  (The unamended claim promised no trailing whitespace
unconditionally; truncation at 120 characters can cut directly after an
interior space, see the counterexample.) -/
theorem sanitize_filename_totality (x : List Char) :
    1 ≤ (sanitize_filename x).length ∧
    (sanitize_filename x).length ≤ 120 ∧
    (∀ c ∈ sanitize_filename x, isForbChar c = false) ∧
    (∀ c, (sanitize_filename x).head? = some c → pySpace c = false) ∧
    ((sanitizedCore x).length ≤ 120 →
      ∀ c, (sanitize_filename x).getLast? = some c → pySpace c = false) := by
  by_cases h : sanitizedCore x = []
  · have hx : sanitize_filename x = String.toList "output" := by
      unfold sanitize_filename
      rw [if_pos h]
    rw [hx]
    refine ⟨by decide, by decide, by decide, ?_, fun _ => ?_⟩
    · intro c hc
      have h2 : (String.toList "output").head? = some 'o' := by decide
      rw [h2, Option.some_inj] at hc
      subst hc
      decide
    · intro c hc
      have h2 : (String.toList "output").getLast? = some 't' := by decide
      rw [h2, Option.some_inj] at hc
      subst hc
      decide
  · have hx : sanitize_filename x = (sanitizedCore x).take 120 := by
      unfold sanitize_filename
      rw [if_neg h]
    rw [hx]
    have hpos : 0 < (sanitizedCore x).length := List.length_pos.mpr h
    refine ⟨?_, ?_, ?_, ?_, ?_⟩
    · rw [List.length_take]
      omega
    · rw [List.length_take]
      omega
    · intro c hc
      exact sanitizedCore_no_forb x c (List.take_subset 120 _ hc)
    · intro c hc
      exact sanitizedCore_head x c (head?_of_prepend (List.take_append_drop 120 _) hc)
    · intro h120 c hc
      rw [List.take_of_length_le h120] at hc
      exact sanitizedCore_getLast x c hc

/-- Witness for `sanitize_filename_totality` at the concrete input
`"A/B:C*D"`, whose sanitized form is `"A-B-C-D"` with last character `D`. -/
theorem sanitize_filename_totality_witness : pySpace 'D' = false :=
  (sanitize_filename_totality (String.toList "A/B:C*D")).2.2.2.2 (by decide) 'D' (by decide)

/-- A 121-character input whose sanitized form is truncated right after an
interior space: 119 copies of `a`, a space, and a `b`. -/
def truncGap : List Char := List.replicate 119 'a' ++ [' ', 'b']

/-- Claim C2 as stated is false: on `truncGap` the 120-character truncation
cuts directly after a space, so the returned name ends in whitespace. -/
theorem sanitize_filename_totality_cex :
    (sanitize_filename truncGap).getLast? = some ' ' ∧ pySpace ' ' = true := by
  constructor
  · decide
  · decide

/-! ## Claim C3: idempotence of the sanitizer -/

/-- Claim C3 (amended): `sanitize_filename` is idempotent on every input
whose pre-truncation sanitized form fits in 120 characters, i.e. whenever
the final `name[:120]` truncation does not cut the string.  (Unamended, the
claim fails exactly when truncation leaves a trailing space, see the
counterexample.) -/
theorem sanitize_filename_idem (x : List Char)
    (h : (sanitizedCore x).length ≤ 120) :
    sanitize_filename (sanitize_filename x) = sanitize_filename x := by
  by_cases h0 : sanitizedCore x = []
  · have hx : sanitize_filename x = String.toList "output" := by
      unfold sanitize_filename
      rw [if_pos h0]
    rw [hx]
    decide
  · have hx : sanitize_filename x = sanitizedCore x := by
      unfold sanitize_filename
      rw [if_neg h0, List.take_of_length_le h]
    rw [hx]
    have e1 : stripWs (sanitizedCore x) = sanitizedCore x :=
      stripWs_eq_self _ (sanitizedCore_head x) (sanitizedCore_getLast x)
    have e2 : replForb (sanitizedCore x) = sanitizedCore x :=
      collapseRunsAux_eq_self false _ (sanitizedCore_no_forb x)
    have e3 : collapseWs (sanitizedCore x) = sanitizedCore x :=
      (collapseWs_eq_self_of_goodWs _ (sanitizedCore_goodWs x)).1
    have hcore : sanitizedCore (sanitizedCore x) = sanitizedCore x := by
      show stripWs (collapseWs (replForb (stripWs (sanitizedCore x)))) = sanitizedCore x
      rw [e1, e2, e3, e1]
    unfold sanitize_filename
    rw [hcore, if_neg h0, List.take_of_length_le h]

/-- Witness for `sanitize_filename_idem` at the concrete input `"Lot 42"`. -/
theorem sanitize_filename_idem_witness :
    sanitize_filename (sanitize_filename (String.toList "Lot 42")) =
      sanitize_filename (String.toList "Lot 42") :=
  sanitize_filename_idem (String.toList "Lot 42") (by decide)

/-- A second truncation input for the idempotence counterexample. -/
def truncGapIdem : List Char := List.replicate 119 'a' ++ [' ', 'c']

/-- Claim C3 as stated is false: sanitizing `truncGapIdem` once yields a name
with a trailing space (cut by the 120-character truncation), and sanitizing
that name again strips the space, so the two results differ. -/
theorem sanitize_filename_idem_cex :
    sanitize_filename (sanitize_filename truncGapIdem) ≠ sanitize_filename truncGapIdem := by
  decide

/-! ## Layout geometry (source lines 33-39 and 81-84)

`compose_final_pdf` computes `scale = BARCODE_TARGET_W / bc_w`,
`barcode_w_pt = bc_w * scale`, `barcode_h_pt = bc_h * scale` (lines 82-84);
`draw_base_a4_with_text_and_label` places the graphic at
`x = (PAGE_W - barcode_w_pt) / 2`, `y = (PAGE_H - barcode_h_pt) / 2`
(lines 34-35) and anchors the label at `label_x_center = PAGE_W / 2`,
`label_y = y - GAP_BARCODE_LABEL` (lines 38-39). -/

structure Geometry where
  scale : ℚ
  barcode_w_pt : ℚ
  barcode_h_pt : ℚ
  x : ℚ
  y : ℚ
  label_x_center : ℚ
  label_y : ℚ
deriving DecidableEq

/-- The geometry derived from the source page's native dimensions, exactly as
the two source functions compute it. -/
def geometryOf (bc_w bc_h : ℚ) : Geometry :=
  let scale := BARCODE_TARGET_W / bc_w
  let barcode_w_pt := bc_w * scale
  let barcode_h_pt := bc_h * scale
  let x := (PAGE_W - barcode_w_pt) / 2
  let y := (PAGE_H - barcode_h_pt) / 2
  ⟨scale, barcode_w_pt, barcode_h_pt, x, y, PAGE_W / 2, y - GAP_BARCODE_LABEL⟩

example : (geometryOf 100 50).scale = 18 / 5 := by
  norm_num [geometryOf, BARCODE_TARGET_W]

example : (geometryOf 100 50).barcode_h_pt = 180 := by
  norm_num [geometryOf, BARCODE_TARGET_W]

/-! ## Claim C4: the placed width equals the target width exactly -/

/-- Claim C4: for positive native dimensions, the placed width
`bc_w * scale` with `scale = BARCODE_TARGET_W / bc_w` is exactly the module
constant `BARCODE_TARGET_W`, and the placed height is `bc_h * scale`.
Python float arithmetic is modelled by exact rational arithmetic. -/
theorem barcode_scaled_to_target_width (bc_w bc_h : ℚ) (hw : 0 < bc_w)
    (hh : 0 < bc_h) :
    (geometryOf bc_w bc_h).barcode_w_pt = BARCODE_TARGET_W ∧
    (geometryOf bc_w bc_h).barcode_h_pt = bc_h * (BARCODE_TARGET_W / bc_w) := by
  have hne : bc_w ≠ 0 := ne_of_gt hw
  constructor
  · show bc_w * (BARCODE_TARGET_W / bc_w) = BARCODE_TARGET_W
    field_simp
  · rfl

/-- Witness for `barcode_scaled_to_target_width` at native size 100 by 50. -/
theorem barcode_scaled_to_target_width_witness :
    (geometryOf 100 50).barcode_w_pt = BARCODE_TARGET_W ∧
    (geometryOf 100 50).barcode_h_pt = 50 * (BARCODE_TARGET_W / 100) :=
  barcode_scaled_to_target_width 100 50 (by norm_num) (by norm_num)

/-! ## Claim C5: the placed graphic is centered on both axes -/

/-- Claim C5: for positive native dimensions the placed graphic is centered
on the page on both axes: `x + barcode_w_pt / 2 = PAGE_W / 2` and
`y + barcode_h_pt / 2 = PAGE_H / 2`.  In the exact rational model the
identities hold exactly, hence within any floating-point tolerance. -/
theorem barcode_centered (bc_w bc_h : ℚ) (hw : 0 < bc_w) (hh : 0 < bc_h) :
    (geometryOf bc_w bc_h).x + (geometryOf bc_w bc_h).barcode_w_pt / 2 = PAGE_W / 2 ∧
    (geometryOf bc_w bc_h).y + (geometryOf bc_w bc_h).barcode_h_pt / 2 = PAGE_H / 2 := by
  constructor
  · show (PAGE_W - bc_w * (BARCODE_TARGET_W / bc_w)) / 2 +
        bc_w * (BARCODE_TARGET_W / bc_w) / 2 = PAGE_W / 2
    ring
  · show (PAGE_H - bc_h * (BARCODE_TARGET_W / bc_w)) / 2 +
        bc_h * (BARCODE_TARGET_W / bc_w) / 2 = PAGE_H / 2
    ring

/-- Witness for `barcode_centered` at native size 100 by 50. -/
theorem barcode_centered_witness :
    (geometryOf 100 50).x + (geometryOf 100 50).barcode_w_pt / 2 = PAGE_W / 2 ∧
    (geometryOf 100 50).y + (geometryOf 100 50).barcode_h_pt / 2 = PAGE_H / 2 :=
  barcode_centered 100 50 (by norm_num) (by norm_num)

/-! ## Claim C9: the label anchor -/

/-- Claim C9: the label is drawn horizontally centered at `PAGE_W / 2` and at
`label_y = y - GAP_BARCODE_LABEL`, i.e. directly below the placed graphic's
lower edge `y`, offset by the fixed gap constant. -/
theorem label_anchor_below_graphic (bc_w bc_h : ℚ) :
    (geometryOf bc_w bc_h).label_x_center = PAGE_W / 2 ∧
    (geometryOf bc_w bc_h).label_y =
      (geometryOf bc_w bc_h).y - GAP_BARCODE_LABEL :=
  ⟨rfl, rfl⟩

/-! ## Top-text drawing loop (source lines 44-60)

The renderer draws wrapped lines top-down: `y_text` starts at
`PAGE_H - MARGIN`; for each line, if `y_text - line_height < MARGIN` the loop
breaks, otherwise the line is drawn at baseline `y_text - line_height` and
`y_text` decreases by `line_height`. -/

/-- Line height of the top text (source line 48: `font_size * 1.3`). -/
def line_height : ℚ := TOP_TEXT_FONT_SIZE * (13 / 10)

/-- Usable text width (source line 47: `PAGE_W - 2 * MARGIN`). -/
def available_width : ℚ := PAGE_W - 2 * MARGIN

/-- The loop of source lines 56-60: the `(baseline, text)` pairs actually
passed to `drawString`, starting from the running coordinate `y_text`. -/
def drawLinesAux (y_text : ℚ) : List (List Char) → List (ℚ × List Char)
  | [] => []
  | l :: ls =>
    if y_text - line_height < MARGIN then []
    else (y_text - line_height, l) :: drawLinesAux (y_text - line_height) ls

/-- The lines drawn for a given wrapped-line list, with `y_text` initialized
to `PAGE_H - MARGIN` (source line 49). -/
def drawnTopLines (wrapped : List (List Char)) : List (ℚ × List Char) :=
  drawLinesAux (PAGE_H - MARGIN) wrapped

lemma drawLinesAux_baseline_ge (y : ℚ) (ls : List (List Char)) :
    ∀ p ∈ drawLinesAux y ls, MARGIN ≤ p.1 := by
  induction ls generalizing y with
  | nil => intro p hp; simp [drawLinesAux] at hp
  | cons l t ih =>
    intro p hp
    by_cases hc : y - line_height < MARGIN
    · rw [drawLinesAux, if_pos hc] at hp
      simp at hp
    · rw [drawLinesAux, if_neg hc] at hp
      rcases List.mem_cons.mp hp with h1 | h1
      · rw [h1]
        exact le_of_not_lt hc
      · exact ih (y - line_height) p h1

lemma drawLinesAux_get? (y : ℚ) (ls : List (List Char)) :
    ∀ (n : Nat) (p : ℚ × List Char), (drawLinesAux y ls).get? n = some p →
      p.1 = y - ((n : ℚ) + 1) * line_height ∧ ls.get? n = some p.2 := by
  induction ls generalizing y with
  | nil => intro n p hp; simp [drawLinesAux] at hp
  | cons l t ih =>
    intro n p hp
    by_cases hc : y - line_height < MARGIN
    · rw [drawLinesAux, if_pos hc] at hp
      simp at hp
    · rw [drawLinesAux, if_neg hc] at hp
      cases n with
      | zero =>
        rw [List.get?_cons_zero, Option.some_inj] at hp
        subst hp
        refine ⟨by push_cast; ring, ?_⟩
        rw [List.get?_cons_zero]
      | succ m =>
        rw [List.get?_cons_succ] at hp
        rcases ih (y - line_height) m p hp with ⟨h1, h2⟩
        refine ⟨?_, ?_⟩
        · rw [h1]
          push_cast
          ring
        · rw [List.get?_cons_succ]
          exact h2

/-! ## Claim C6: top-down drawing with silent bottom-margin clipping -/

/-- Claim C6: for every wrapped-line list, the drawn lines are an initial
segment of the wrapped lines; the n-th drawn line has baseline
`PAGE_H - MARGIN - (n + 1) * line_height` (so drawing starts at
`PAGE_H - MARGIN` and steps down by `line_height = fontSize * 1.3`), and
every drawn baseline is at least `MARGIN` — lines that would cross the
bottom margin are silently dropped. -/
theorem top_text_lines_clipped (wrapped : List (List Char)) :
    (∀ p ∈ drawnTopLines wrapped, MARGIN ≤ p.1) ∧
    (∀ (n : Nat) (p : ℚ × List Char), (drawnTopLines wrapped).get? n = some p →
      p.1 = PAGE_H - MARGIN - ((n : ℚ) + 1) * line_height ∧
      wrapped.get? n = some p.2) := by
  constructor
  · exact drawLinesAux_baseline_ge (PAGE_H - MARGIN) wrapped
  · intro n p hp
    rcases drawLinesAux_get? (PAGE_H - MARGIN) wrapped n p hp with ⟨h1, h2⟩
    exact ⟨h1, h2⟩

/-- Witness for `top_text_lines_clipped`: with a single wrapped line the
first baseline `PAGE_H - MARGIN - line_height` is above the bottom margin. -/
theorem top_text_lines_clipped_witness :
    MARGIN ≤ (PAGE_H - MARGIN - line_height, String.toList "Lot 42").1 := by
  have hcond : ¬(PAGE_H - MARGIN - line_height < MARGIN) := by
    norm_num [PAGE_H, MARGIN, line_height, TOP_TEXT_FONT_SIZE]
  refine (top_text_lines_clipped [String.toList "Lot 42"]).1
    (PAGE_H - MARGIN - line_height, String.toList "Lot 42") ?_
  show (PAGE_H - MARGIN - line_height, String.toList "Lot 42") ∈
      drawLinesAux (PAGE_H - MARGIN) [String.toList "Lot 42"]
  rw [drawLinesAux, if_neg hcond]
  exact List.mem_cons_self _ _

/-! ## Paragraphs and word wrapping (source lines 51-54)

Source:
```
wrapped_lines = []
for paragraph in (top_text.splitlines() or [""]):
    lines = simpleSplit(paragraph if paragraph else " ", ...)
    wrapped_lines.extend(lines if lines else [""])
```
`splitlines` and `simpleSplit` are embedded below; the `or [""]` fallbacks
are `orDefault`. -/

/-- The line-boundary characters of Python's `str.splitlines`. -/
def isLineBreak (c : Char) : Bool :=
  [10, 11, 12, 13, 28, 29, 30, 0x85, 0x2028, 0x2029].contains c.toNat

/-- Python `str.splitlines`: split at line boundaries, treating `\r\n` as a
single boundary, with no trailing empty line for a trailing boundary.
The accumulator holds the current line reversed. -/
def splitlinesAux (cur : List Char) : List Char → List (List Char)
  | [] => if cur = [] then [] else [cur.reverse]
  | '\r' :: '\n' :: cs => cur.reverse :: splitlinesAux [] cs
  | c :: cs =>
    if isLineBreak c then cur.reverse :: splitlinesAux [] cs
    else splitlinesAux (c :: cur) cs

/-- Python `top_text.splitlines()`. -/
def splitlines (l : List Char) : List (List Char) :=
  splitlinesAux [] l

/-- Python `str.split()` with no separator: the maximal runs of
non-whitespace characters (a whitespace-only string has no words). -/
def splitWordsAux (cur : List Char) : List Char → List (List Char)
  | [] => if cur = [] then [] else [cur.reverse]
  | c :: cs =>
    if pySpace c then
      if cur = [] then splitWordsAux [] cs
      else cur.reverse :: splitWordsAux [] cs
    else splitWordsAux (c :: cur) cs

/-- Python `txt.split()`. -/
def splitWords (l : List Char) : List (List Char) :=
  splitWordsAux [] l

/-- Python `" ".join(words)`. -/
def joinWords : List (List Char) → List Char
  | [] => []
  | [w] => w
  | w :: ws => w ++ ' ' :: joinWords ws

/-- Python `txt.split('\n')` (note: unlike `splitlines` this keeps a final
empty piece, and the empty string yields one empty piece). -/
def splitOnNlAux (cur : List Char) : List Char → List (List Char)
  | [] => [cur.reverse]
  | c :: cs =>
    if c = '\n' then cur.reverse :: splitOnNlAux [] cs
    else splitOnNlAux (c :: cur) cs

/-- Greedy packing of words into lines of width at most `mW` under the
string-width metric `SW`, modelling the external dependency
`reportlab.lib.utils._simpleSplit`: each word is appended to the current
line if it still fits (or the line is empty), otherwise the line is emitted
and a new one starts.  `acc` holds the current line's words reversed and `w`
its accumulated width.  No words produce no lines. -/
def packWordsAux (SW : List Char → ℚ) (mW : ℚ) :
    List (List Char) → ℚ → List (List Char) → List (List Char)
  | acc, _, [] => if acc = [] then [] else [joinWords acc.reverse]
  | acc, w, t :: ts =>
    if w + SW t ≤ mW ∨ acc = [] then
      packWordsAux SW mW (t :: acc) (w + SW t + SW [' ']) ts
    else
      joinWords acc.reverse :: packWordsAux SW mW [t] (SW t + SW [' ']) ts

/-- Modelled external dependency `reportlab.lib.utils.simpleSplit` with the
font metric abstracted as `SW`: split on `\n`, then word-wrap each piece.
Its only property the source relies on is that a whitespace-only paragraph
(no words) yields no lines. -/
def simpleSplit (SW : List Char → ℚ) (mW : ℚ) (txt : List Char) :
    List (List Char) :=
  (splitOnNlAux [] txt).flatMap fun piece =>
    packWordsAux SW mW [] 0 (splitWords piece)

/-- The `or`-fallback of source lines 52 and 54: an empty list is replaced
by the one-element list `[d]`. -/
def orDefault (ls : List (List Char)) (d : List Char) : List (List Char) :=
  if ls = [] then [d] else ls

/-- Embedding of source lines 51-54: the wrapped-line list fed to the
drawing loop.  `SW` abstracts the Helvetica-10 string-width metric. -/
def wrapped_lines (SW : List Char → ℚ) (top_text : List Char) :
    List (List Char) :=
  (orDefault (splitlines top_text) []).flatMap fun paragraph =>
    orDefault
      (simpleSplit SW available_width (if paragraph = [] then [' '] else paragraph)) []

lemma orDefault_ne_nil (ls : List (List Char)) (d : List Char) :
    orDefault ls d ≠ [] := by
  unfold orDefault
  by_cases h : ls = []
  · rw [if_pos h]
    simp
  · rw [if_neg h]
    exact h

/-! ## Claim C10: the wrapped-line list is never empty -/

/-- Claim C10: for every top-text input and every string-width metric the
wrapped-line list is non-empty, and the completely empty text yields exactly
one blank wrapped line (one line of vertical space): the empty `splitlines`
result is replaced by a single empty paragraph, the empty paragraph is
wrapped as the single space `" "` which has no words and so produces no
lines, and the empty wrap result is replaced by one blank line. -/
theorem wrapped_lines_nonempty (SW : List Char → ℚ) (t : List Char) :
    wrapped_lines SW t ≠ [] ∧ wrapped_lines SW [] = [[]] := by
  constructor
  · unfold wrapped_lines
    cases hh : orDefault (splitlines t) [] with
    | nil => exact absurd hh (orDefault_ne_nil _ _)
    | cons p rest =>
      rw [List.flatMap_cons]
      intro hcontra
      rcases List.append_eq_nil.mp hcontra with ⟨h1, _⟩
      exact orDefault_ne_nil _ _ h1
  · rfl

/-! ## Page content and the merge step (source lines 56-64 and 94-95)

A page's content stream is modelled as the list of drawing operations in the
order they were appended.  `merge_transformed_page` models pypdf's
`PageObject.merge_transformed_page`, which overlays the transformed source
page on top of the existing content: it appends, never erases. -/

inductive ContentOp where
  | textLine (x y : ℚ) (s : List Char)
  | centredText (x y : ℚ) (s : List Char)
  | mergedPage (scale dx dy : ℚ) (src : List Char)
deriving DecidableEq

/-- The background page rendered by `draw_base_a4_with_text_and_label`: the
clipped top-text lines (each drawn at `x = MARGIN`, source line 59) followed
by the centred label at the label anchor (source line 64). -/
def basePageOps (wrapped : List (List Char)) (label_text : List Char)
    (g : Geometry) : List ContentOp :=
  ((drawnTopLines wrapped).map fun p => ContentOp.textLine MARGIN p.1 p.2) ++
    [ContentOp.centredText g.label_x_center g.label_y label_text]

/-- Modelled external dependency `pypdf PageObject.merge_transformed_page`
(source lines 94-95): the source page, transformed by
`Transformation().scale(scale).translate(x, y)`, is appended as an overlay
on the existing page content. -/
def merge_transformed_page (page : List ContentOp) (src : List Char)
    (scale dx dy : ℚ) : List ContentOp :=
  page ++ [ContentOp.mergedPage scale dx dy src]

/-! ## Claim C8: merging preserves the background content -/

/-- Claim C8: merging the transformed source page into the background page
keeps every background operation: the merged page extends the background
page's operation list, so in particular the label and all drawn top-text
lines are still present. -/
theorem merge_preserves_background (wrapped : List (List Char))
    (label_text src : List Char) (g : Geometry) (s dx dy : ℚ) :
    ContentOp.centredText g.label_x_center g.label_y label_text ∈
      merge_transformed_page (basePageOps wrapped label_text g) src s dx dy ∧
    ∃ tail, merge_transformed_page (basePageOps wrapped label_text g) src s dx dy =
      basePageOps wrapped label_text g ++ tail := by
  constructor
  · unfold merge_transformed_page basePageOps
    rw [List.append_assoc]
    exact List.mem_append_right _ (List.mem_append_left _ (List.mem_cons_self _ _))
  · exact ⟨[ContentOp.mergedPage s dx dy src], rfl⟩

/-! ## The compose pipeline and its failure behaviour (source lines 71-108)

`compose_final_pdf` reads the text file, reads the first page of the source
PDF and its media-box dimensions, computes the geometry (raising
`ZeroDivisionError` at line 82 if the native width is zero), renders the
background and merges the transformed source page, then opens the output
path for writing and writes the finished document.  Each effectful step is
represented by its `Except`-valued result in a `ComposeEnv`; the returned
`FileState` records what is on disk at the output path afterwards.
`open(out_path, "wb")` creates/truncates the file, and a failure inside
`writer.write` leaves whatever bytes were already written, so a write
failure leaves an incomplete file at the output path. -/

inductive PdfErr where
  | ioError (msg : List Char)
  | pdfReadError (msg : List Char)
  | zeroDivisionError
deriving DecidableEq

/-- What exists at the output path after the operation. -/
inductive FileState where
  | absent
  | incomplete
  | complete
deriving DecidableEq

/-- The results of the effectful steps of one `compose_final_pdf` run:
reading the text file (line 73), reading the source PDF's first-page
dimensions (lines 76-79), rendering the background and merging the
transformed page (lines 87-98), opening the output file (line 105), and
writing it (line 106). -/
structure ComposeEnv where
  readTextResult : Except PdfErr (List Char)
  readPdfResult : Except PdfErr (ℚ × ℚ)
  renderMergeResult : Except PdfErr Unit
  openResult : Except PdfErr Unit
  writeResult : Except PdfErr Unit

/-- Embedding of `compose_final_pdf`: runs the pipeline steps in source
order, propagating the first failure, and reports the resulting state of the
output path.  On success the returned value is the output file name
`sanitize_filename(label_text) + ".pdf"` (source line 101). -/
def compose_final_pdf (label_text : List Char) (env : ComposeEnv) :
    Except PdfErr (List Char) × FileState :=
  match env.readTextResult with
  | .error e => (.error e, .absent)
  | .ok _top_text =>
    match env.readPdfResult with
    | .error e => (.error e, .absent)
    | .ok dims =>
      if dims.1 = 0 then (.error .zeroDivisionError, .absent)
      else
        match env.renderMergeResult with
        | .error e => (.error e, .absent)
        | .ok _ =>
          match env.openResult with
          | .error e => (.error e, .absent)
          | .ok _ =>
            match env.writeResult with
            | .error e => (.error e, .incomplete)
            | .ok _ =>
              (.ok (sanitize_filename label_text ++ String.toList ".pdf"), .complete)

/-! ## Claim C1: failing runs and the output file -/

/-- Claim C1 (amended): every failure is propagated to the caller, and a
failing run leaves no output file unless the failure happened during the
final write of the already-opened output file, in which case an incomplete
file remains at the output path.  (The unamended claim promised no file for
every failing run; the code opens the final path directly and writes into
it, so a write failure leaves a truncated file, see the counterexample.) -/
theorem compose_failure_file_state (label_text : List Char) (env : ComposeEnv)
    (e : PdfErr) (h : (compose_final_pdf label_text env).1 = Except.error e) :
    (compose_final_pdf label_text env).2 = FileState.absent ∨
      ((compose_final_pdf label_text env).2 = FileState.incomplete ∧
        ∃ e2, env.writeResult = Except.error e2) := by
  rcases env with ⟨rt, rp, rm, op, wr⟩
  cases rt with
  | error e1 => exact Or.inl rfl
  | ok tv =>
    cases rp with
    | error e1 => exact Or.inl rfl
    | ok dims =>
      by_cases hz : dims.1 = 0
      · left
        simp [compose_final_pdf, hz]
      · cases rm with
        | error e1 =>
          left
          simp [compose_final_pdf, hz]
        | ok u1 =>
          cases op with
          | error e1 =>
            left
            simp [compose_final_pdf, hz]
          | ok u2 =>
            cases wr with
            | error e1 =>
              right
              refine ⟨?_, e1, rfl⟩
              simp [compose_final_pdf, hz]
            | ok u3 =>
              exfalso
              rw [show compose_final_pdf label_text
                  ⟨Except.ok tv, Except.ok dims, Except.ok u1, Except.ok u2, Except.ok u3⟩ =
                  (Except.ok (sanitize_filename label_text ++ String.toList ".pdf"),
                    FileState.complete) from by simp [compose_final_pdf, hz]] at h
              exact Except.noConfusion h

/-- Witness for `compose_failure_file_state`: a run whose text-file read
fails leaves no output file. -/
theorem compose_failure_file_state_witness :
    (compose_final_pdf (String.toList "Lot 42")
      ⟨Except.error (PdfErr.ioError (String.toList "no such file")),
        Except.ok (200, 80), Except.ok (), Except.ok (), Except.ok ()⟩).2 =
      FileState.absent ∨
    ((compose_final_pdf (String.toList "Lot 42")
      ⟨Except.error (PdfErr.ioError (String.toList "no such file")),
        Except.ok (200, 80), Except.ok (), Except.ok (), Except.ok ()⟩).2 =
      FileState.incomplete ∧
      ∃ e2, (ComposeEnv.mk (Except.error (PdfErr.ioError (String.toList "no such file")))
        (Except.ok (200, 80)) (Except.ok ()) (Except.ok ()) (Except.ok ())).writeResult =
        Except.error e2) :=
  compose_failure_file_state (String.toList "Lot 42")
    ⟨Except.error (PdfErr.ioError (String.toList "no such file")),
      Except.ok (200, 80), Except.ok (), Except.ok (), Except.ok ()⟩
    (PdfErr.ioError (String.toList "no such file")) rfl

/-- A run in which every step succeeds except the final write. -/
def envWriteFails : ComposeEnv :=
  ⟨Except.ok [], Except.ok (200, 80), Except.ok (), Except.ok (),
    Except.error (PdfErr.ioError (String.toList "disk full"))⟩

/-- Claim C1 as stated is false: when the final write fails, the error is
propagated but an incomplete output file remains at the output path (the
code opened the final path directly and wrote into it — no temporary file,
no atomic rename). -/
theorem compose_leftover_file_cex :
    (compose_final_pdf (String.toList "Lot 42") envWriteFails).1 =
      Except.error (PdfErr.ioError (String.toList "disk full")) ∧
    (compose_final_pdf (String.toList "Lot 42") envWriteFails).2 ≠
      FileState.absent := by
  constructor
  · simp [compose_final_pdf, envWriteFails]
  · simp [compose_final_pdf, envWriteFails]

/-! ## GUI entry point `App.create_pdf` (source lines 187-209)

The handler strips the three form fields, validates them in order (source
PDF path non-empty and existing, text path non-empty and existing, label
non-empty) and shows an error box and returns before any composing work if a
check fails; otherwise it calls `compose_final_pdf` inside a `try` and shows
either the success box or the caught error. -/

inductive GuiResult where
  | errorShown (msg : List Char)
  | successShown (outName : List Char)
deriving DecidableEq

/-- Source line 194 error text. -/
def msgInvalidPdf : List Char := String.toList "Gecerli bir Barcode PDF secin."

/-- Source line 197 error text. -/
def msgInvalidTxt : List Char := String.toList "Gecerli bir TXT dosyasi secin."

/-- Source line 200 error text. -/
def msgEmptyLabel : List Char :=
  String.toList "Etiket metni zorunludur (dosya adi olarak kullanilacak)."

/-- The message carried by a caught exception from the compose pipeline. -/
def pdfErrMsg : PdfErr → List Char
  | .ioError m => m
  | .pdfReadError m => m
  | .zeroDivisionError => String.toList "float division by zero"

/-- Embedding of `App.create_pdf`: `srcExists` and `txtExists` model
`Path(...).exists()` for the two stripped paths; the environment models the
effectful steps of `compose_final_pdf` when it is reached. -/
def create_pdf (srcRaw txtRaw labelRaw : List Char)
    (srcExists txtExists : Bool) (env : ComposeEnv) : GuiResult × FileState :=
  let src := stripWs srcRaw
  let txt := stripWs txtRaw
  let label := stripWs labelRaw
  if src = [] ∨ srcExists = false then (.errorShown msgInvalidPdf, .absent)
  else if txt = [] ∨ txtExists = false then (.errorShown msgInvalidTxt, .absent)
  else if label = [] then (.errorShown msgEmptyLabel, .absent)
  else
    match compose_final_pdf label env with
    | (Except.ok outName, fs) => (.successShown outName, fs)
    | (Except.error e, fs) => (.errorShown (pdfErrMsg e), fs)

/-! ## Claim C7: an empty or whitespace-only label is rejected up front -/

/-- Claim C7: when the label field strips to the empty string, `create_pdf`
shows a validation error, produces no output file, and never consults the
compose pipeline (the result is the same for every environment) — the error
is detected before any rendering work starts. -/
theorem empty_label_rejected (srcRaw txtRaw labelRaw : List Char)
    (srcExists txtExists : Bool) (env : ComposeEnv)
    (h : stripWs labelRaw = []) :
    (∃ msg, (create_pdf srcRaw txtRaw labelRaw srcExists txtExists env).1 =
      GuiResult.errorShown msg) ∧
    (create_pdf srcRaw txtRaw labelRaw srcExists txtExists env).2 =
      FileState.absent ∧
    ∀ env2, create_pdf srcRaw txtRaw labelRaw srcExists txtExists env =
      create_pdf srcRaw txtRaw labelRaw srcExists txtExists env2 := by
  unfold create_pdf
  by_cases h1 : stripWs srcRaw = [] ∨ srcExists = false
  · rw [if_pos h1]
    exact ⟨⟨msgInvalidPdf, rfl⟩, rfl, fun env2 => by rw [if_pos h1]⟩
  · rw [if_neg h1]
    by_cases h2 : stripWs txtRaw = [] ∨ txtExists = false
    · rw [if_pos h2]
      exact ⟨⟨msgInvalidTxt, rfl⟩, rfl, fun env2 => by rw [if_neg h1, if_pos h2]⟩
    · rw [if_neg h2, if_pos h]
      exact ⟨⟨msgEmptyLabel, rfl⟩, rfl, fun env2 => by rw [if_neg h1, if_neg h2, if_pos h]⟩

/-- Witness for `empty_label_rejected`: a whitespace-only label with both
files present is rejected with the empty-label message and no output. -/
theorem empty_label_rejected_witness :
    (∃ msg, (create_pdf (String.toList "bc.pdf") (String.toList "note.txt")
      (String.toList "   ") true true envWriteFails).1 =
      GuiResult.errorShown msg) ∧
    (create_pdf (String.toList "bc.pdf") (String.toList "note.txt")
      (String.toList "   ") true true envWriteFails).2 = FileState.absent ∧
    ∀ env2, create_pdf (String.toList "bc.pdf") (String.toList "note.txt")
      (String.toList "   ") true true envWriteFails =
      create_pdf (String.toList "bc.pdf") (String.toList "note.txt")
        (String.toList "   ") true true env2 :=
  empty_label_rejected (String.toList "bc.pdf") (String.toList "note.txt")
    (String.toList "   ") true true envWriteFails (by decide)

end LsMaker
